import Mathlib

/-!
Verification development for the TritonGPU transforms utility
(`lib/Dialect/TritonGPU/Transforms/Utility.cpp`).

The development shallowly embeds the layout-conversion minimization
machinery of that file: the layout model and the inversion rule
(`invertEncoding`), the cost classifier (`isExpensiveToRemat`,
`isExpensiveLoadOrStore`, `canFoldConversion`), the backward
rematerialization simulator (`simulateBackwardRematerialization`), the
forward-in-loop legality checker
(`simulateForwardRematerializationInLoop`), the loop hoisting decision
(`canMoveOutOfLoop`), the rewrite executor
(`rematerializeConversionChain` with `cloneWithInferType`), and the loop
type-fixup pattern (`FixupLoop::matchAndRewrite` / `fixupLoops`).

IR values and operations are numbered; a graph holds per-operation kind,
operand value ids, result value ids, block id and nested region op ids,
and per-value type, optional producing operation, and owning block.
Machine `int` arithmetic of the source never overflows in these
routines, so `numCvts` is embedded as `Int`; the `INT_MAX` sentinel is
the literal 2147483647.
-/

/-- Layout descriptor attribute (`triton::gpu::*EncodingAttr`),
compared structurally. -/
inductive Layout where
  | blocked (id : Nat)
  | mma (version : Nat)
  | sliced (dim : Nat) (parent : Layout)
  | dotOperand (opIdx : Nat) (parent : Layout)
  | shared (vec : Nat) (id : Nat)
deriving DecidableEq

/-- MLIR types as used by the pass: ranked tensors with an encoding,
triton pointer types (tracking whether the pointee is a tensor), and
opaque scalar types. -/
inductive MLIRType where
  | tensor (shape : List Nat) (elemType : Nat) (enc : Layout)
  | ptr (pointeeIsTensor : Bool)
  | scalar (id : Nat)
deriving DecidableEq

/-- Operation kinds dispatched on by the source via `isa`/`dyn_cast`.
`generic` stands for any other operation (e.g. `arith.addf`) and carries
its MLIR traits (`Elementwise`, `SameOperandsAndResultEncoding`), which
are declared outside this file's source. -/
inductive OpKind where
  | expandDims (axis : Nat)
  | reduce (axis : Nat)
  | view
  | cat
  | load
  | store
  | extractSlice
  | allocTensor
  | insertSliceAsync
  | atomicRMW
  | atomicCAS
  | dot
  | scfYield
  | scfFor
  | scfIf
  | scfWhile
  | scfCondition
  | convertLayout
  | constant
  | makeRange
  | splat
  | assertOp
  | printOp
  | generic (tag : Nat) (elementwise : Bool) (sameEncoding : Bool)
deriving DecidableEq

/-- `op->hasTrait<mlir::OpTrait::Elementwise>()`. -/
def hasElementwiseTrait : OpKind → Bool
  | .generic _ ew _ => ew
  | _ => false

/-- `op->hasTrait<mlir::OpTrait::SameOperandsAndResultEncoding>()`. -/
def hasSameEncodingTrait : OpKind → Bool
  | .generic _ _ se => se
  | _ => false

/-- An operation: kind, operand value ids, result value ids, the id of
the block holding it, and the op ids of the blocks of its nested
regions. -/
structure Opn where
  kind : OpKind
  operands : List Nat
  results : List Nat
  blockId : Nat
  regions : List (List Nat)
deriving DecidableEq

instance : Inhabited Opn := ⟨⟨OpKind.view, [], [], 0, []⟩⟩

/-- A value: its type, its producing operation (none for block
arguments), and the block in which it is defined. -/
structure VInfo where
  vtype : MLIRType
  producer : Option Nat
  blockId : Nat
deriving DecidableEq

instance : Inhabited VInfo := ⟨⟨MLIRType.scalar 0, none, 0⟩⟩

/-- The IR graph a pass invocation sees, together with the module-level
configuration and the two externally defined predicates the source
calls: `triton::gpu::isExpensiveCat` and the optional
`InferTypeOpInterface` capability. -/
structure Graph where
  ops : List Opn
  vals : List VInfo
  numWarps : Nat
  threadsPerWarp : Nat
  expensiveCat : Nat → Layout → Bool
  inferResultType : OpKind → List MLIRType → Option MLIRType

def Graph.opAt (g : Graph) (i : Nat) : Opn := g.ops.getD i default

def Graph.valAt (g : Graph) (v : Nat) : VInfo := g.vals.getD v default

def Graph.typeOf (g : Graph) (v : Nat) : MLIRType := (g.valAt v).vtype

def Graph.producerOf (g : Graph) (v : Nat) : Option Nat := (g.valAt v).producer

def Graph.blockOfVal (g : Graph) (v : Nat) : Nat := (g.valAt v).blockId

/-- SSA well-formedness used by the termination argument: inside the
graph, the producer of any operand of operation `i` is an operation
with a strictly smaller id (operations are numbered in a topological
order of the operand DAG). -/
def Graph.wfb (g : Graph) : Bool :=
  (List.range g.ops.length).all fun i =>
    (g.opAt i).operands.all fun v =>
      match g.producerOf v with
      | some j => decide (j < i)
      | none => true

def isTensorTy : MLIRType → Bool
  | .tensor _ _ _ => true
  | _ => false

/-- `argI.getType().dyn_cast<triton::PointerType>()` with a
`RankedTensorType` pointee. -/
def isPtrToTensorTy : MLIRType → Bool
  | .ptr b => b
  | _ => false

def tensorEnc : MLIRType → Option Layout
  | .tensor _ _ e => some e
  | _ => none

def numElements : MLIRType → Nat
  | .tensor shape _ _ => shape.prod
  | _ => 1

/-- Modelled from the spec: the helper `isSingleValue` (declared in
`triton/Analysis/Utility.h`, its definition is not under `src/`) holds
when "the accessed tensor has a single distinct element"; non-tensor
values are single values. -/
def isSingleValue (t : MLIRType) : Bool :=
  match t with
  | .tensor shape _ _ => shape.prod == 1
  | _ => true

/-- `invertEncoding` (Utility.cpp:299-319): map a desired result layout
through an operation to the layout required of its operands; `none` is
the source's `failure()`. -/
def invertEncoding (targetEncoding : Layout) (k : OpKind) : Option Layout :=
  match k with
  | .expandDims axis => some (.sliced axis targetEncoding)
  | .reduce axis =>
    match targetEncoding with
    | .sliced dim parent => if dim = axis then some parent else none
    | _ => none
  | .view => none
  | .cat => none
  | _ => some targetEncoding

/-- `isExpensiveLoadOrStore` (Utility.cpp:321-335). -/
def isExpensiveLoadOrStore (g : Graph) (i : Nat) : Bool :=
  let v := (g.opAt i).operands.getD 0 0
  if isSingleValue (g.typeOf v) then false
  else if numElements (g.typeOf v) < g.numWarps * g.threadsPerWarp then false
  else true

/-- `isExpensiveToRemat` (Utility.cpp:337-352); the argument is the
possibly-null `Operation *`. -/
def isExpensiveToRemat (g : Graph) (o : Option Nat) (targetEncoding : Layout) : Bool :=
  match o with
  | none => true
  | some i =>
    match (g.opAt i).kind with
    | .load => isExpensiveLoadOrStore g i
    | .store => isExpensiveLoadOrStore g i
    | .cat => g.expensiveCat i targetEncoding
    | .extractSlice => true
    | .allocTensor => true
    | .insertSliceAsync => true
    | .atomicRMW => true
    | .atomicCAS => true
    | .dot => true
    | .scfYield => true
    | .scfFor => true
    | .scfIf => true
    | .scfWhile => true
    | .scfCondition => true
    | _ => false

/-- `canFoldConversion` (Utility.cpp:354-360). -/
def canFoldConversion (g : Graph) (i : Nat) (targetEncoding : Layout) : Bool :=
  match (g.opAt i).kind with
  | .cat => ! g.expensiveCat i targetEncoding
  | .convertLayout => true
  | .constant => true
  | .makeRange => true
  | .splat => true
  | .view => true
  | _ => false

/-- The source's infeasibility sentinel `INT_MAX`. -/
def INT_MAX : Int := 2147483647

/-- State threaded through `simulateBackwardRematerialization`: the
`processed` and `layout` SetVectors, the `toConvert` MapVector, and the
running `numCvts`. `popTrace` is instrumentation absent from the
source: it records, in order, the id of every operation that passes the
expensive check and is processed (the source has no observable for
this); it influences nothing else. -/
structure SimState where
  processed : List Nat
  layouts : List Layout
  toConvert : List (Nat × Layout)
  numCvts : Int
  popTrace : List Nat
deriving DecidableEq

/-- `SetVector<Operation*>::insert`: append if absent. -/
def insertSet (s : List Nat) (i : Nat) : List Nat :=
  if i ∈ s then s else s ++ [i]

/-- `SetVector<Attribute>::insert`: append if absent. -/
def insertLayoutSet (s : List Layout) (l : Layout) : List Layout :=
  if l ∈ s then s else s ++ [l]

/-- `MapVector<Value, Attribute>` lookup. -/
def lookupMap (m : List (Nat × Layout)) (k : Nat) : Option Layout :=
  match m with
  | [] => none
  | (k2, v) :: rest => if k2 = k then some v else lookupMap rest k

/-- `MapVector<Value, Attribute>::insert`: inserts only when the key is
absent (it never overwrites). -/
def insertMap (m : List (Nat × Layout)) (k : Nat) (v : Layout) : List (Nat × Layout) :=
  match lookupMap m k with
  | some _ => m
  | none => m ++ [(k, v)]

/-- A DFS stack entry `(Operation*, Attribute)`; the head of the list
is the back of the source's `std::vector`. -/
abbrev SimEntry := Option Nat × Layout

/-- Outcome of the operand loop of one `while` iteration
(Utility.cpp:387-419): `abort` is the `return INT_MAX` paths, `ok`
carries the updated state and stack. -/
inductive FoldStep where
  | abort (st : SimState)
  | ok (st : SimState) (queue : List SimEntry)
deriving DecidableEq

/-- One iteration of `for (Value argI : currOp->getOperands())`
(Utility.cpp:387-419) for operation `i` popped with layout
`currLayout`: invert the layout, check for a conflicting requirement
and for a tensor-of-pointers operand (the `return INT_MAX` paths),
record the operand's required layout, then either skip the producer
(no producer / non-tensor operand / already processed / different
block / foldable) or count one conversion and push it. A pushed entry
is consed onto the stack, matching `emplace_back` with the head of the
list as the vector's back. -/
def procOperandTail (g : Graph) (i : Nat) (newEncoding : Layout) (argI : Nat)
    (st : SimState) (queue : List SimEntry) : FoldStep :=
  -- tensor-of-pointers operands are unsupported (Utility.cpp:395-399)
  if isPtrToTensorTy (g.typeOf argI) then .abort st
  else
    match g.producerOf argI with
    | none => .ok { st with toConvert := insertMap st.toConvert argI newEncoding } queue
    | some p =>
      if !(isTensorTy (g.typeOf argI)) || decide (p ∈ st.processed)
          || !((g.opAt p).blockId == (g.opAt i).blockId) then
        .ok { st with toConvert := insertMap st.toConvert argI newEncoding } queue
      else if canFoldConversion g p newEncoding then
        .ok { st with toConvert := insertMap st.toConvert argI newEncoding } queue
      else
        .ok { st with toConvert := insertMap st.toConvert argI newEncoding,
                      numCvts := st.numCvts + 1 } ((some p, newEncoding) :: queue)

def procOneOperand (g : Graph) (i : Nat) (currLayout : Layout) (argI : Nat)
    (st : SimState) (queue : List SimEntry) : FoldStep :=
  match invertEncoding currLayout (g.opAt i).kind with
  | none => .abort st
  | some newEncoding =>
    -- `if (toConvert.count(argI) && toConvert[argI] != newEncoding)` (Utility.cpp:393)
    match lookupMap st.toConvert argI with
    | some prev =>
      if prev ≠ newEncoding then .abort st
      else procOperandTail g i newEncoding argI st queue
    | none => procOperandTail g i newEncoding argI st queue

/-- The whole operand loop (Utility.cpp:387-419): run
`procOneOperand` over the operand list, propagating the first
`return INT_MAX`. -/
def procOperands (g : Graph) (i : Nat) (currLayout : Layout) :
    List Nat → SimState → List SimEntry → FoldStep
  | [], st, queue => .ok st queue
  | argI :: rest, st, queue =>
    match procOneOperand g i currLayout argI st queue with
    | .abort st2 => .abort st2
    | .ok st2 q2 => procOperands g i currLayout rest st2 q2

/-- The fuelled `while (!queue.empty())` loop of
`simulateBackwardRematerialization` (Utility.cpp:372-420). `none` means
the fuel ran out; the fuel is extraneous to the source and a sufficient
amount always exists on well-formed graphs (see the termination
theorem). A `break` on an expensive pop returns the running `numCvts`;
an operand-loop abort returns `INT_MAX`. -/
def simLoop (g : Graph) : Nat → List SimEntry → SimState → Option (Int × SimState)
  | 0, _, _ => none
  | _ + 1, [], st => some (st.numCvts, st)
  | fuel + 1, (currOp, currLayout) :: rest, st =>
    if isExpensiveToRemat g currOp currLayout then some (st.numCvts, st)
    else
      match currOp with
      | none => some (st.numCvts, st)
      | some i =>
        let st1 : SimState :=
          { st with numCvts := st.numCvts - 1,
                    processed := insertSet st.processed i,
                    layouts := insertLayoutSet st.layouts currLayout,
                    popTrace := st.popTrace ++ [i] }
        match procOperands g i currLayout (g.opAt i).operands st1 rest with
        | .abort st2 => some (INT_MAX, st2)
        | .ok st2 queue2 => simLoop g fuel queue2 st2

/-- The initial state of a simulator invocation: all outputs empty and
`numCvts = 1` (Utility.cpp:367-371). -/
def initSimState : SimState := ⟨[], [], [], 1, []⟩

/-- `simulateBackwardRematerialization` (Utility.cpp:362-423); the
returned state carries the `processed`, `layout` and `toConvert` output
parameters. -/
def simulateBackwardRematerialization (g : Graph) (fuel : Nat)
    (initOp : Option Nat) (targetEncoding : Layout) : Option (Int × SimState) :=
  simLoop g fuel [(initOp, targetEncoding)] initSimState

/-- One record of `struct OpUseInfo` (Utility.cpp:465-469). -/
structure OpUseInfo where
  value : Nat
  op : Nat
  index : Nat
deriving DecidableEq

/-- The uses of a value: every (consumer operation, operand index) pair,
enumerated in operation-id then operand order (the framework's use-list
enumeration order is unspecified; this is one faithful enumeration). -/
def Graph.usesOf (g : Graph) (v : Nat) : List (Nat × Nat) :=
  (List.range g.ops.length).flatMap fun j =>
    (g.opAt j).operands.enum.filterMap fun p =>
      if p.2 = v then some (j, p.1) else none

mutual

/-- Body of `getForwardSliceOpUseInfo` (Utility.cpp:471-493) for a
non-null op: recurse into nested region ops, then walk every use of
every result (recording an `OpUseInfo` per use), finally insert the op
into the slice. The fuel is extraneous to the source; `none` means it
ran out. -/
def fwdSliceOp (g : Graph) : Nat → Nat → List Nat × List OpUseInfo →
    Option (List Nat × List OpUseInfo)
  | 0, _, _ => none
  | fuel + 1, i, acc => do
    let acc1 ← fwdSliceRegionOps g fuel ((g.opAt i).regions.flatten) acc
    let acc2 ← fwdSliceResults g fuel ((g.opAt i).results) acc1
    some (insertSet acc2.1 i, acc2.2)

/-- The `for (Region...) for (Block...) for (Operation &blockOp...)`
recursion of Utility.cpp:477-481. -/
def fwdSliceRegionOps (g : Graph) : Nat → List Nat → List Nat × List OpUseInfo →
    Option (List Nat × List OpUseInfo)
  | 0, _, _ => none
  | _ + 1, [], acc => some acc
  | fuel + 1, j :: rest, acc =>
    if j ∈ acc.1 then fwdSliceRegionOps g fuel rest acc
    else do
      let acc1 ← fwdSliceOp g fuel j acc
      fwdSliceRegionOps g fuel rest acc1

/-- The `for (Value result : op->getResults())` loop of
Utility.cpp:482-490. -/
def fwdSliceResults (g : Graph) : Nat → List Nat → List Nat × List OpUseInfo →
    Option (List Nat × List OpUseInfo)
  | 0, _, _ => none
  | _ + 1, [], acc => some acc
  | fuel + 1, r :: rest, acc => do
    let acc1 ← fwdSliceUseList g fuel r (g.usesOf r) acc
    fwdSliceResults g fuel rest acc1

/-- The `for (OpOperand &operand : result.getUses())` loop of
Utility.cpp:483-489: record the use, then recurse into its owner if it
is not yet in the slice. -/
def fwdSliceUseList (g : Graph) : Nat → Nat → List (Nat × Nat) →
    List Nat × List OpUseInfo → Option (List Nat × List OpUseInfo)
  | 0, _, _, _ => none
  | _ + 1, _, [], acc => some acc
  | fuel + 1, r, (j, k) :: rest, acc =>
    let acc1 : List Nat × List OpUseInfo := (acc.1, acc.2 ++ [⟨r, j, k⟩])
    if j ∈ acc1.1 then fwdSliceUseList g fuel r rest acc1
    else do
      let acc2 ← fwdSliceOp g fuel j acc1
      fwdSliceUseList g fuel r rest acc2

end

/-- `getForwardSliceOpUseInfo` entry point (null op returns the
untouched, initially empty, accumulators). -/
def getForwardSliceOpUseInfo (g : Graph) (fuel : Nat) (o : Option Nat) :
    Option (List Nat × List OpUseInfo) :=
  match o with
  | none => some ([], [])
  | some i => fwdSliceOp g fuel i ([], [])

/-- A block argument as the source receives it: its value id, the id of
its owner block, the kind of the owner block's parent operation, and
`getArgNumber()`. -/
structure BlockArg where
  vid : Nat
  ownerBlock : Nat
  parentKind : OpKind
  argNumber : Nat
deriving DecidableEq

def isSharedOrSliced : Layout → Bool
  | .shared _ _ => true
  | .sliced _ _ => true
  | _ => false

/-- The `for (Value value : op->getOperands())` loop of
Utility.cpp:525-535. The loop variable is unused in the source: each
iteration seeds the backward simulator at `arg.getDefiningOp()`
(Utility.cpp:526), not at the operand's producer. `some true` means the
loop completed without failing. -/
def fwdCheckOperandLoop (g : Graph) (fuel : Nat) (arg : BlockArg)
    (targetEncoding : Layout) (cvtSliceOps : List Nat) :
    List Nat → Option Bool
  | [] => some true
  | _value :: rest =>
    let argOp := g.producerOf arg.vid
    match simulateBackwardRematerialization g fuel argOp targetEncoding with
    | none => none
    | some (numAddedConvs, _) =>
      let bad : Bool :=
        match argOp with
        | none => false
        | some a =>
          !((g.opAt a).kind == OpKind.convertLayout) && decide (a ∉ cvtSliceOps)
            && decide (numAddedConvs > 0)
      if bad then some false
      else fwdCheckOperandLoop g fuel arg targetEncoding cvtSliceOps rest

/-- The `for (Operation *op : cvtSliceOps)` loop of
Utility.cpp:508-536. -/
def fwdCheckSliceOps (g : Graph) (fuel : Nat) (startOp : Nat) (arg : BlockArg)
    (targetEncoding : Layout) (cvtSliceOps : List Nat) :
    List Nat → Option Bool
  | [] => some true
  | i :: rest =>
    if (g.opAt i).kind == OpKind.scfYield then
      fwdCheckSliceOps g fuel startOp arg targetEncoding cvtSliceOps rest
    else
      let k := (g.opAt i).kind
      let failA : Bool :=
        if i != startOp then
          isExpensiveToRemat g (some i) targetEncoding
            || (!(hasSameEncodingTrait k) && !(hasElementwiseTrait k)
                && !(k == OpKind.store)
                && !(k == OpKind.assertOp)
                && !(k == OpKind.printOp)
                && !(match k with | OpKind.reduce _ => true | _ => false))
        else false
      if failA then some false
      else
        match fwdCheckOperandLoop g fuel arg targetEncoding cvtSliceOps
            ((g.opAt i).operands) with
        | none => none
        | some false => some false
        | some true =>
          fwdCheckSliceOps g fuel startOp arg targetEncoding cvtSliceOps rest

/-- The yield-index consistency loop of Utility.cpp:540-554.
`arg.getArgNumber() - 1` is unsigned 32-bit arithmetic in the source,
embedded with its wraparound. -/
def fwdCheckYieldUses (g : Graph) (arg : BlockArg) :
    List OpUseInfo → Option Bool
  | [] => some true
  | u :: rest =>
    if (g.opAt u.op).kind == OpKind.scfYield then
      let yieldIdx := u.index
      let argIdx := (arg.argNumber + (2 ^ 32 - 1)) % 2 ^ 32
      if yieldIdx ≠ argIdx then
        match tensorEnc (g.typeOf arg.vid) with
        | none => none
        | some argEnc =>
          match tensorEnc (g.typeOf ((g.opAt u.op).operands.getD yieldIdx 0)) with
          | none => some false
          | some yEnc =>
            if argEnc ≠ yEnc then some false else fwdCheckYieldUses g arg rest
      else fwdCheckYieldUses g arg rest
    else fwdCheckYieldUses g arg rest

/-- `simulateForwardRematerializationInLoop` (Utility.cpp:496-556).
`some true` is `success()`, `some false` is `failure()`; `none` means
the extraneous fuel ran out or a checked cast would have asserted. -/
def simulateForwardRematerializationInLoop (g : Graph) (fuel : Nat) (startOp : Nat)
    (arg : BlockArg) (targetEncoding : Layout) : Option Bool :=
  if isSharedOrSliced targetEncoding then some false
  else
    match getForwardSliceOpUseInfo g fuel (some startOp) with
    | none => none
    | some (cvtSliceOps, cvtSliceOpUseInfo) =>
      match fwdCheckSliceOps g fuel startOp arg targetEncoding cvtSliceOps cvtSliceOps with
      | none => none
      | some false => some false
      | some true =>
        match fwdCheckYieldUses g arg cvtSliceOpUseInfo with
        | none => none
        | some false => some false
        | some true => some true

/-- Append-if-absent for the `SetVector<RankedTensorType>` `cvtTypes`. -/
def insertTypeSet (s : List MLIRType) (t : MLIRType) : List MLIRType :=
  if t ∈ s then s else s ++ [t]

/-- `enc.isa<triton::gpu::SharedEncodingAttr>()`. -/
def isSharedEnc : Layout → Bool
  | .shared _ _ => true
  | _ => false

/-- `enc.isa<triton::gpu::DotOperandEncodingAttr>()`. -/
def isDotOperandEnc : Layout → Bool
  | .dotOperand _ _ => true
  | _ => false

/-- `enc.isa<SharedEncodingAttr>() && enc.cast<SharedEncodingAttr>().getVec() == 1`:
the source's nested test of Utility.cpp:630-635 (a `Shared` layout with
vectorization factor other than 1 falls through). -/
def isSharedVecOne : Layout → Bool
  | .shared vec _ => vec == 1
  | _ => false

/-- The `for (auto user : arg.getUsers())` partition of
Utility.cpp:622-640, accumulating `(cvts, cvtTypes, others)`. Returns
`none` when the source's `cast<RankedTensorType>` on a conversion
result would have asserted. -/
def collectLoopCvts (g : Graph) (oldEnc : Layout) :
    List Nat → List Nat × List MLIRType × List Nat →
    Option (List Nat × List MLIRType × List Nat)
  | [], acc => some acc
  | u :: rest, acc =>
    if (g.opAt u).kind == OpKind.convertLayout then
      match g.typeOf ((g.opAt u).results.getD 0 0) with
      | .tensor shape elemType newEnc =>
        -- Don't move if the conversion target is a dot operand or shared memory
        if isSharedEnc oldEnc && isDotOperandEnc newEnc then
          collectLoopCvts g oldEnc rest acc
        else if isSharedVecOne newEnc then
          collectLoopCvts g oldEnc rest acc
        else
          collectLoopCvts g oldEnc rest
            (acc.1 ++ [u], insertTypeSet acc.2.1 (.tensor shape elemType newEnc), acc.2.2)
      | _ => none
    else collectLoopCvts g oldEnc rest (acc.1, acc.2.1, insertSet acc.2.2 u)

/-- The `for (auto *other : others)` loop of Utility.cpp:653-664. -/
def checkOthersLoop (g : Graph) (fuel : Nat) (arg : BlockArg)
    (targetEncoding : Layout) : List Nat → Option Bool
  | [] => some true
  | o :: rest =>
    if !((g.opAt o).blockId == arg.ownerBlock) then some false
    else
      match simulateForwardRematerializationInLoop g fuel o arg targetEncoding with
      | none => none
      | some false => some false
      | some true => checkOthersLoop g fuel arg targetEncoding rest

/-- The body of `canMoveOutOfLoop` past the `cast<RankedTensorType>`
of the argument type (Utility.cpp:619-667): partition the users, then
apply the three conditions. -/
def canMoveOutOfLoopChecks (g : Graph) (fuel : Nat) (arg : BlockArg)
    (oldEnc : Layout) : Option (Bool × List Nat) :=
  match collectLoopCvts g oldEnc ((g.usesOf arg.vid).map Prod.fst) ([], [], []) with
  | none => none
  | some (cvts, cvtTypes, others) =>
    -- First condition
    if cvts.isEmpty then some (true, cvts)
    else if cvtTypes.length == 1 then
      if cvts.any (fun c => !((g.opAt c).blockId == arg.ownerBlock)) then
        some (false, cvts)
      else
        match cvtTypes with
        | [] => none
        | t :: _ =>
          match tensorEnc t with
          | none => none
          | some targetEncoding =>
            match checkOthersLoop g fuel arg targetEncoding others with
            | none => none
            | some false => some (false, cvts)
            | some true => some (true, cvts)
    else some (false, cvts)

/-- `canMoveOutOfLoop` (Utility.cpp:604-668). The second component is
the `cvts` output vector as populated when the function returns;
`some (true, _)` is `success()`. The owner block of a loop-carried
`BlockArgument` is `forOp.getBody()`, so the source's block comparisons
against `forOp.getBody()` compare against `arg.ownerBlock`. -/
def canMoveOutOfLoop (g : Graph) (fuel : Nat) (arg : BlockArg) :
    Option (Bool × List Nat) :=
  -- Don't move if arg is defined in a while loop
  if arg.parentKind == OpKind.scfWhile then some (false, [])
  -- Skip if arg is not defined in scf.for
  else if !(arg.parentKind == OpKind.scfFor) then some (true, [])
  else
    match tensorEnc (g.typeOf arg.vid) with
    | none => none
    | some oldEnc => canMoveOutOfLoopChecks g fuel arg oldEnc

instance : Inhabited MLIRType := ⟨MLIRType.scalar 0⟩

/-- `IRMapping` lookup (value-to-value). -/
def lookupNatMap : List (Nat × Nat) → Nat → Option Nat
  | [], _ => none
  | (k2, v2) :: rest, k => if k2 = k then some v2 else lookupNatMap rest k

/-- `IRMapping::map`: set, overwriting any previous mapping. -/
def setNatMap : List (Nat × Nat) → Nat → Nat → List (Nat × Nat)
  | [], k, v => [(k, v)]
  | (k2, v2) :: rest, k, v =>
    if k2 = k then (k2, v) :: rest else (k2, v2) :: setNatMap rest k v

/-- Types of values created during a rewrite transaction. -/
def lookupTypeMap : List (Nat × MLIRType) → Nat → Option MLIRType
  | [], _ => none
  | (k2, v2) :: rest, k => if k2 = k then some v2 else lookupTypeMap rest k

/-- Graph mutations the rewrite executor performs, as placement records:
`cloneAfter i c r ws` is a clone of operation `i` (with operands `ws`,
new op id `c`, first result `r`) moved immediately after `i`;
`convertAfter a s r l` is a `ConvertLayoutOp` from value `s` to layout
`l` (result `r`) moved immediately after operation `a`;
`convertAtBlockStart b s r l` is the same conversion moved to the very
start of block `b`. -/
inductive RAction where
  | cloneAfter (origOp : Nat) (cloneOp : Nat) (cloneResult : Nat) (operands : List Nat)
  | convertAfter (anchorOp : Nat) (src : Nat) (result : Nat) (target : Layout)
  | convertAtBlockStart (blockId : Nat) (src : Nat) (result : Nat) (target : Layout)
deriving DecidableEq

/-- Rewrite-transaction state: fresh op/value id counters, the
`IRMapping`, the types of created values, and the emitted placements. -/
structure RState where
  nextOp : Nat
  nextVal : Nat
  mapping : List (Nat × Nat)
  newTypes : List (Nat × MLIRType)
  actions : List RAction
deriving DecidableEq

/-- A value's type, consulting the transaction's created values first. -/
def typeOfExt (g : Graph) (st : RState) (v : Nat) : MLIRType :=
  match lookupTypeMap st.newTypes v with
  | some t => t
  | none => g.typeOf v

/-- `cloneWithInferType` (Utility.cpp:427-461): clone operation `i` with
operands rewritten through the mapping; keep the original result types
when no operand type changed, otherwise re-type the first result with
the first operand's encoding, preferring the structural
`InferTypeOpInterface` result when the interface is implemented (the
external capability is modelled for the first result by
`Graph.inferResultType`). The clone maps every original result to the
corresponding new result, as `rewriter.clone(*op, mapping)` does.
Returns the new state, the clone's op id and its first result id. -/
def cloneWithInferType (g : Graph) (st : RState) (i : Nat) : RState × Nat × Nat :=
  let op := g.opAt i
  let newOperands := op.operands.map fun w => (lookupNatMap st.mapping w).getD w
  let cloneOp := st.nextOp
  let resIds := (List.range op.results.length).map fun k => st.nextVal + k
  -- if input types haven't changed, we're done
  let preserveTypes := op.operands.all fun w =>
    match lookupNatMap st.mapping w with
    | none => true
    | some w2 => typeOfExt g st w == typeOfExt g st w2
  let baseType :=
    if preserveTypes then typeOfExt g st (op.results.getD 0 0)
    else if op.results.isEmpty then typeOfExt g st (op.results.getD 0 0)
    else
      match typeOfExt g st (op.results.getD 0 0),
          typeOfExt g st (newOperands.getD 0 0) with
      | MLIRType.tensor shape elemType _, MLIRType.tensor _ _ argEnc =>
        (match g.inferResultType op.kind (newOperands.map (typeOfExt g st)) with
         | some t => t
         | none => MLIRType.tensor shape elemType argEnc)
      | t0, _ => t0
  let newTypes1 := ((op.results.zip resIds).drop 1).foldl
    (fun m p => (p.2, g.typeOf p.1) :: m) st.newTypes
  let newTypes2 :=
    match resIds with
    | [] => newTypes1
    | r0 :: _ => (r0, baseType) :: newTypes1
  let mapping1 := (op.results.zip resIds).foldl (fun m p => setNatMap m p.1 p.2) st.mapping
  ({ st with
      nextOp := st.nextOp + 1,
      nextVal := st.nextVal + op.results.length,
      mapping := mapping1,
      newTypes := newTypes2,
      actions := st.actions ++ [RAction.cloneAfter i cloneOp (resIds.getD 0 0) newOperands] },
    cloneOp, resIds.getD 0 0)

/-- Insertion sort by ascending id. -/
def insertSorted (i : Nat) : List Nat → List Nat
  | [] => [i]
  | j :: rest => if i ≤ j then i :: j :: rest else j :: insertSorted i rest

/-- Models the external `mlir::multiRootTopologicalSort`: it returns the
operations in a producers-before-consumers order; since the graph's
operation ids are topologically numbered, ascending id order is such an
order. -/
def sortOpsTopologically (l : List Nat) : List Nat := l.foldr insertSorted []

/-- The `sortedValues` computation of Utility.cpp:562-573: values of
the plan without a defining op first (in map order), then the first
results of the topologically sorted defining ops. -/
def sortedValues (g : Graph) (toConvert : List (Nat × Layout)) : List Nat :=
  let keys := toConvert.map Prod.fst
  let noDef := keys.filter fun v => (g.producerOf v).isNone
  let defOps := keys.foldl
    (fun s v => match g.producerOf v with
      | some p => insertSet s p
      | none => s) []
  noDef ++ (sortOpsTopologically defOps).map fun p => (g.opAt p).results.getD 0 0

/-- The tail of one `for (Value currOperand : sortedValues)` iteration
(Utility.cpp:588-600): compute the target type for the layout cast
(`none` models the `cast<RankedTensorType>` assertion), create the
`ConvertLayoutOp` from `currOperand`, move it after `currOperation`
(or, for a bare block argument, to the start of its owning block), and
map the original value to the conversion's result. -/
def rematConvert (g : Graph) (st : RState) (currOperation : Option Nat)
    (currOperand : Nat) (origOperand : Nat) (targetLayout : Layout) : Option RState :=
  match typeOfExt g st currOperand with
  | MLIRType.tensor shape elemType _ =>
    let cvtRes := st.nextVal
    let act :=
      match currOperation with
      | some a => RAction.convertAfter a currOperand cvtRes targetLayout
      | none =>
        RAction.convertAtBlockStart (g.blockOfVal currOperand) currOperand cvtRes
          targetLayout
    some { st with
      nextOp := st.nextOp + 1,
      nextVal := st.nextVal + 1,
      newTypes := (cvtRes, MLIRType.tensor shape elemType targetLayout) :: st.newTypes,
      mapping := setNatMap st.mapping origOperand cvtRes,
      actions := st.actions ++ [act] }
  | _ => none

/-- One iteration of the `for (Value currOperand : sortedValues)` loop
(Utility.cpp:575-601): look up the value's target layout (`none`
models a missed `MapVector::lookup`), clone the producer when it was
marked processed (the clone then becomes `currOperation`/`currOperand`),
and insert the conversion. -/
def rematStep (g : Graph) (toConvert : List (Nat × Layout)) (processed : List Nat)
    (st : RState) (v : Nat) : Option RState :=
  match lookupMap toConvert v with
  | none => none
  | some targetLayout =>
    match g.producerOf v with
    | some p =>
      if p ∈ processed then
        rematConvert g (cloneWithInferType g st p).1
          (some (cloneWithInferType g st p).2.1)
          ((cloneWithInferType g st p).2.2) v targetLayout
      else rematConvert g st (some p) v v targetLayout
    | none => rematConvert g st none v v targetLayout

def rematFold (g : Graph) (toConvert : List (Nat × Layout)) (processed : List Nat) :
    List Nat → RState → Option RState
  | [], st => some st
  | v :: rest, st =>
    match rematStep g toConvert processed st v with
    | none => none
    | some st1 => rematFold g toConvert processed rest st1

/-- `rematerializeConversionChain` (Utility.cpp:558-602). `baseOp` and
`baseVal` seed the fresh-id counters for created operations/values. -/
def rematerializeConversionChain (g : Graph) (toConvert : List (Nat × Layout))
    (processed : List Nat) (mapping0 : List (Nat × Nat)) (baseOp baseVal : Nat) :
    Option RState :=
  rematFold g toConvert processed (sortedValues g toConvert)
    ⟨baseOp, baseVal, mapping0, [], []⟩

/-- An `scf.for` as the fixup pattern sees it: bounds and step, the
types of the init operands, of the region iteration arguments, and of
the results, plus the (opaque) body payload. -/
structure ForLoop where
  lowerBound : Nat
  upperBound : Nat
  step : Nat
  initTypes : List MLIRType
  iterArgTypes : List MLIRType
  resultTypes : List MLIRType
  bodyOps : List Nat
deriving DecidableEq

/-- The `shouldRematerialize` scan of Utility.cpp:27-34. -/
def shouldRematerializeLoop (f : ForLoop) : Bool :=
  (List.range f.initTypes.length).any fun i =>
    !(f.initTypes.getD i default == f.iterArgTypes.getD i default)
      || !(f.initTypes.getD i default == f.resultTypes.getD i default)

/-- `FixupLoop::matchAndRewrite` (Utility.cpp:20-53): `none` is
`failure()` (no rewrite); on success the loop is rebuilt via
`rewriter.create<scf::ForOp>` from the same bounds, step and init
operands — the MLIR builder types the new region iteration arguments
and results from the init operands — the body is cloned wholesale under
the argument remapping, and the old loop's results are replaced by the
new loop's. -/
def fixupLoopMatchAndRewrite (f : ForLoop) : Option ForLoop :=
  if shouldRematerializeLoop f then
    some { f with iterArgTypes := f.initTypes, resultTypes := f.initTypes }
  else none

/-- The greedy driver's effect on one loop: apply the pattern if it
matches, otherwise leave the loop alone. -/
def fixupLoopApply (f : ForLoop) : ForLoop :=
  match fixupLoopMatchAndRewrite f with
  | some f2 => f2
  | none => f

/-- `fixupLoops` (Utility.cpp:58-65): run the pattern over every loop
of the module to a fixpoint (one application per loop reaches it). -/
def fixupLoops (loops : List ForLoop) : List ForLoop :=
  loops.map fixupLoopApply

/-- No concatenation is expensive (the external `isExpensiveCat`
predicate of the example modules). -/
def catFalse : Nat → Layout → Bool := fun _ _ => false

/-- No operation kind implements `InferTypeOpInterface` in the example
modules. -/
def inferNone : OpKind → List MLIRType → Option MLIRType := fun _ _ => none

/-- Scenario B module: a single atomic read-modify-write producing a
blocked tensor. -/
def exB : Graph :=
  { ops := [⟨.atomicRMW, [], [0], 0, []⟩],
    vals := [⟨.tensor [4] 0 (.blocked 0), some 0, 0⟩],
    numWarps := 4, threadsPerWarp := 32,
    expensiveCat := catFalse, inferResultType := inferNone }

/-- Scenario A module: an elementwise add (operation 2) of a range
(operation 0) and a splat of a scalar (operation 1), all blocked. -/
def exA : Graph :=
  { ops := [⟨.makeRange, [], [0], 0, []⟩, ⟨.splat, [3], [1], 0, []⟩,
            ⟨.generic 0 true true, [0, 1], [2], 0, []⟩],
    vals := [⟨.tensor [4] 0 (.blocked 0), some 0, 0⟩,
             ⟨.tensor [4] 0 (.blocked 0), some 1, 0⟩,
             ⟨.tensor [4] 0 (.blocked 0), some 2, 0⟩,
             ⟨.scalar 1, none, 0⟩],
    numWarps := 4, threadsPerWarp := 32,
    expensiveCat := catFalse, inferResultType := inferNone }

/-- Diamond module: operation 1 consumes the result of operation 0 as
both of its operands; operation 0 is cheap and not foldable. -/
def exD : Graph :=
  { ops := [⟨.generic 0 true false, [], [0], 0, []⟩,
            ⟨.generic 1 true false, [0, 0], [1], 0, []⟩],
    vals := [⟨.tensor [4] 0 (.blocked 0), some 0, 0⟩,
             ⟨.tensor [4] 0 (.blocked 0), some 1, 0⟩],
    numWarps := 4, threadsPerWarp := 32,
    expensiveCat := catFalse, inferResultType := inferNone }

/-- Module for the forward-in-loop check: the slice seed (operation 3)
consumes the result of operation 2, whose own rematerialization under
the target layout is blocked by the atomic (operation 0); value 4 is
the loop-carried block argument. -/
def exC2 : Graph :=
  { ops := [⟨.atomicRMW, [], [0], 0, []⟩,
            ⟨.generic 0 true false, [], [1], 0, []⟩,
            ⟨.generic 1 true false, [1, 0], [2], 0, []⟩,
            ⟨.generic 2 true false, [2], [3], 0, []⟩],
    vals := [⟨.tensor [4] 0 (.blocked 0), some 0, 0⟩,
             ⟨.tensor [4] 0 (.blocked 0), some 1, 0⟩,
             ⟨.tensor [4] 0 (.blocked 0), some 2, 0⟩,
             ⟨.tensor [4] 0 (.blocked 0), some 3, 0⟩,
             ⟨.tensor [4] 0 (.blocked 0), none, 0⟩],
    numWarps := 4, threadsPerWarp := 32,
    expensiveCat := catFalse, inferResultType := inferNone }

/-- The loop-carried parameter of `exC2`. -/
def argC2 : BlockArg := ⟨4, 0, .scfFor, 1⟩

/-- Scenario C module: the loop parameter (value 0) is consumed only by
one conversion into a `Shared` layout with vectorization factor 1. -/
def exC6 : Graph :=
  { ops := [⟨.convertLayout, [0], [1], 0, []⟩],
    vals := [⟨.tensor [4] 0 (.blocked 0), none, 0⟩,
             ⟨.tensor [4] 0 (.shared 1 0), some 0, 0⟩],
    numWarps := 4, threadsPerWarp := 32,
    expensiveCat := catFalse, inferResultType := inferNone }

/-- The loop-carried parameter of `exC6`. -/
def argC6 : BlockArg := ⟨0, 0, .scfFor, 1⟩

/-- Module whose seed operation has a non-tensor (scalar) operand. -/
def exC10 : Graph :=
  { ops := [⟨.generic 0 true false, [0], [1], 0, []⟩,
            ⟨.splat, [2], [3], 0, []⟩],
    vals := [⟨.scalar 5, none, 0⟩,
             ⟨.tensor [4] 0 (.blocked 0), some 0, 0⟩,
             ⟨.scalar 6, none, 0⟩,
             ⟨.tensor [4] 0 (.blocked 0), some 1, 0⟩],
    numWarps := 4, threadsPerWarp := 32,
    expensiveCat := catFalse, inferResultType := inferNone }

/-- Module for the rewrite executor: one processed producer. -/
def exC3 : Graph :=
  { ops := [⟨.generic 0 true false, [], [0], 0, []⟩],
    vals := [⟨.tensor [2] 0 (.blocked 0), some 0, 0⟩],
    numWarps := 4, threadsPerWarp := 32,
    expensiveCat := catFalse, inferResultType := inferNone }

/-- A loop whose parameter and result types disagree with its init
types. -/
def exLoop : ForLoop :=
  ⟨0, 4, 1, [.tensor [2] 0 (.blocked 0)], [.tensor [2] 0 (.blocked 1)],
   [.tensor [2] 0 (.blocked 1)], []⟩

/-- C4: for an axis-reduction instruction over axis `a`, layout
inversion is defined exactly on a `Sliced` layout whose axis equals
`a`, returning its parent; any other layout or a mismatched axis is
undefined, and inversion is always undefined for view/concatenation
instructions. -/
theorem C4_theorem :
    (∀ (a : Nat) (L p : Layout),
        invertEncoding L (OpKind.reduce a) = some p ↔ L = Layout.sliced a p) ∧
    (∀ L : Layout, invertEncoding L OpKind.view = none) ∧
    (∀ L : Layout, invertEncoding L OpKind.cat = none) := by
  refine ⟨fun a L p => ?_, fun L => rfl, fun L => rfl⟩
  cases L with
  | sliced d q =>
    simp only [invertEncoding]
    by_cases h : d = a
    · subst h
      simp
    · simp [h]
  | blocked i => simp [invertEncoding]
  | mma v => simp [invertEncoding]
  | dotOperand i p2 => simp [invertEncoding]
  | shared v i => simp [invertEncoding]

/-- C9: the expensive-to-rematerialize classifier is true on a null
instruction, so a backward walk seeded with a producer-less value
breaks on its very first pop, returning delta 1 with the untouched
initial state (nothing is dereferenced or recorded). -/
theorem C9_theorem : ∀ (g : Graph) (l : Layout) (fuel : Nat),
    isExpensiveToRemat g none l = true ∧
    simulateBackwardRematerialization g (fuel + 1) none l = some (1, initSimState) := by
  intro g l fuel
  exact ⟨rfl, rfl⟩

/-- C1 (amended): when the seed instruction is expensive under the
target layout, the backward simulator stops on the very first pop and
returns delta 1 — a strictly positive "no improvement" result, which is
not the `INT_MAX` infeasibility sentinel — with the initial state
untouched: nothing is marked processed, no layout and no operand
requirement is recorded, and the graph (hence the original conversion
instruction) is unchanged since the simulator only reads it. -/
theorem C1_theorem : ∀ (g : Graph) (fuel seed : Nat) (target : Layout),
    isExpensiveToRemat g (some seed) target = true →
    simulateBackwardRematerialization g (fuel + 1) (some seed) target
        = some (1, initSimState) ∧ (1 : Int) ≠ INT_MAX := by
  intro g fuel seed target h
  refine ⟨?_, by decide⟩
  simp [simulateBackwardRematerialization, simLoop, h, initSimState]

/-- C1 witness: the amended statement instantiated on the Scenario B
module, whose seed is an atomic read-modify-write. -/
theorem C1_witness :
    simulateBackwardRematerialization exB 5 (some 0) (Layout.blocked 1)
        = some (1, initSimState) ∧ (1 : Int) ≠ INT_MAX :=
  C1_theorem exB 4 0 (Layout.blocked 1) rfl

/-- C1 counterexample: on the Scenario B module the simulator seeded at
the atomic read-modify-write returns 1, not the `INT_MAX` infeasibility
sentinel the claim asserts it returns. -/
theorem C1_counterexample :
    simulateBackwardRematerialization exB 5 (some 0) (Layout.blocked 1)
        = some (1, initSimState)
      ∧ (1 : Int) ≠ INT_MAX
      ∧ isExpensiveToRemat exB (some 0) (Layout.blocked 1) = true := by
  exact ⟨rfl, by decide, rfl⟩

lemma shouldRemat_after_rebuild (f : ForLoop) :
    shouldRematerializeLoop
      { f with iterArgTypes := f.initTypes, resultTypes := f.initTypes } = false := by
  simp [shouldRematerializeLoop]

/-- C7: the loop type-fixup pattern is idempotent — its own output
never matches again, so re-running performs no rewrite — it always
preserves the number and positional order of the loop's parameters
(the rebuilt loop is created from the same init operands, in order),
and a loop whose every parameter type equals both its init type and
its result type is left untouched. -/
theorem C7_theorem :
    (∀ f f2 : ForLoop, fixupLoopMatchAndRewrite f = some f2 →
        fixupLoopMatchAndRewrite f2 = none) ∧
    (∀ f : ForLoop, fixupLoopApply (fixupLoopApply f) = fixupLoopApply f) ∧
    (∀ loops : List ForLoop, fixupLoops (fixupLoops loops) = fixupLoops loops) ∧
    (∀ f : ForLoop, (fixupLoopApply f).initTypes = f.initTypes) ∧
    (∀ f : ForLoop, f.initTypes.length = f.iterArgTypes.length →
        (fixupLoopApply f).iterArgTypes.length = f.iterArgTypes.length ∧
        (fixupLoopApply f).resultTypes.length = f.initTypes.length ∨
          (fixupLoopApply f) = f) ∧
    (∀ f : ForLoop,
        (∀ i, i < f.initTypes.length →
          f.initTypes.getD i default = f.iterArgTypes.getD i default ∧
          f.initTypes.getD i default = f.resultTypes.getD i default) →
        fixupLoopMatchAndRewrite f = none ∧ fixupLoopApply f = f) := by
  have hmr : ∀ f f2 : ForLoop, fixupLoopMatchAndRewrite f = some f2 →
      fixupLoopMatchAndRewrite f2 = none := by
    intro f f2 h
    unfold fixupLoopMatchAndRewrite at h ⊢
    by_cases hs : shouldRematerializeLoop f = true
    · simp only [hs, if_true] at h
      cases h
      simp [shouldRemat_after_rebuild]
    · simp [hs] at h
  have happ : ∀ f : ForLoop, fixupLoopApply (fixupLoopApply f) = fixupLoopApply f := by
    intro f
    unfold fixupLoopApply
    cases hm : fixupLoopMatchAndRewrite f with
    | none => simp [hm]
    | some f2 => simp [hmr f f2 hm]
  refine ⟨hmr, happ, ?_, ?_, ?_, ?_⟩
  · intro loops
    simp [fixupLoops, Function.comp, happ]
  · intro f
    unfold fixupLoopApply fixupLoopMatchAndRewrite
    by_cases hs : shouldRematerializeLoop f = true
    · simp [hs]
    · simp [hs]
  · intro f hlen
    unfold fixupLoopApply fixupLoopMatchAndRewrite
    by_cases hs : shouldRematerializeLoop f = true
    · left
      simp [hs, hlen]
    · right
      simp [hs]
  · intro f hcons
    have hs : shouldRematerializeLoop f = false := by
      unfold shouldRematerializeLoop
      rw [List.any_eq_false]
      intro i hi
      rw [List.mem_range] at hi
      rcases hcons i hi with ⟨h1, h2⟩
      rw [← h1, ← h2]
      simp
    constructor
    · unfold fixupLoopMatchAndRewrite
      simp [hs]
    · unfold fixupLoopApply fixupLoopMatchAndRewrite
      simp [hs]

/-- C7 witness: the type-fixup applied to a loop whose parameter and
result layouts disagree with its init layout, and the untouched case on
its (consistent) output. -/
theorem C7_witness :
    fixupLoopApply (fixupLoopApply exLoop) = fixupLoopApply exLoop ∧
    ((fixupLoopApply exLoop).iterArgTypes.length = exLoop.iterArgTypes.length ∧
        (fixupLoopApply exLoop).resultTypes.length = exLoop.initTypes.length ∨
      fixupLoopApply exLoop = exLoop) ∧
    (fixupLoopMatchAndRewrite (fixupLoopApply exLoop) = none ∧
      fixupLoopApply (fixupLoopApply exLoop) = fixupLoopApply exLoop) := by
  refine ⟨C7_theorem.2.1 exLoop, C7_theorem.2.2.2.2.1 exLoop rfl, ?_⟩
  exact C7_theorem.2.2.2.2.2 (fixupLoopApply exLoop) (by decide)

lemma collectLoopCvts_skip (g : Graph) (oldEnc : Layout) :
    ∀ us : List Nat,
      (∀ u ∈ us, (g.opAt u).kind = OpKind.convertLayout ∧
        ∃ shape et newEnc,
          g.typeOf ((g.opAt u).results.getD 0 0) = MLIRType.tensor shape et newEnc ∧
          ((isSharedEnc oldEnc && isDotOperandEnc newEnc) = true ∨
            isSharedVecOne newEnc = true)) →
      ∀ acc, collectLoopCvts g oldEnc us acc = some acc := by
  intro us
  induction us with
  | nil => intro _ acc; rfl
  | cons u rest ih =>
    intro h acc
    rcases h u (List.mem_cons_self u rest) with ⟨hk, shape, et, newEnc, hty, hskip⟩
    have hrest := fun v hv => h v (List.mem_cons_of_mem u hv)
    have hty2 : g.typeOf ((g.opAt u).results[0]?.getD 0) = MLIRType.tensor shape et newEnc := by
      rw [← List.getD_eq_getElem?_getD]
      exact hty
    rcases hskip with hs | hs
    · rw [Bool.and_eq_true] at hs
      simp [collectLoopCvts, hk, hty2, hs.1, hs.2, ih hrest acc]
    · by_cases h1 : (isSharedEnc oldEnc && isDotOperandEnc newEnc) = true
      · rw [Bool.and_eq_true] at h1
        simp [collectLoopCvts, hk, hty2, h1.1, h1.2, ih hrest acc]
      · rw [Bool.and_eq_true] at h1
        simp [collectLoopCvts, hk, hty2, h1, hs, ih hrest acc]

/-- C6: the loop-hoisting decision skips, as no-ops, conversions of the
parameter into a `DotOperand` layout when the parameter's layout is
`Shared`, and conversions into a `Shared` layout with vectorization
factor 1; a `for`-loop parameter all of whose consumers are such
conversions therefore yields success with an empty elimination list. -/
theorem C6_theorem : ∀ (g : Graph) (fuel : Nat) (arg : BlockArg) (oldEnc : Layout),
    arg.parentKind = OpKind.scfFor →
    tensorEnc (g.typeOf arg.vid) = some oldEnc →
    (∀ u ∈ ((g.usesOf arg.vid).map Prod.fst),
      (g.opAt u).kind = OpKind.convertLayout ∧
      ∃ shape et newEnc,
        g.typeOf ((g.opAt u).results.getD 0 0) = MLIRType.tensor shape et newEnc ∧
        ((isSharedEnc oldEnc && isDotOperandEnc newEnc) = true ∨
          isSharedVecOne newEnc = true)) →
    canMoveOutOfLoop g fuel arg = some (true, []) := by
  intro g fuel arg oldEnc hpk henc h
  unfold canMoveOutOfLoop
  rw [hpk, henc]
  show canMoveOutOfLoopChecks g fuel arg oldEnc = some (true, [])
  unfold canMoveOutOfLoopChecks
  rw [collectLoopCvts_skip g oldEnc _ h ([], [], [])]
  rfl

/-- C6 witness: Scenario C — the parameter of `exC6` is consumed only
by a conversion into a `Shared` layout with vectorization factor 1. -/
theorem C6_witness : canMoveOutOfLoop exC6 5 argC6 = some (true, []) := by
  refine C6_theorem exC6 5 argC6 (Layout.blocked 0) rfl rfl ?_
  intro u hu
  have hlist : (exC6.usesOf argC6.vid).map Prod.fst = [0] := rfl
  rw [hlist] at hu
  have hu0 : u = 0 := List.mem_singleton.mp hu
  subst hu0
  exact ⟨rfl, [4], 0, Layout.shared 1 0, rfl, Or.inr rfl⟩

lemma lookupMap_mem {m : List (Nat × Layout)} {k : Nat} {l : Layout}
    (h : lookupMap m k = some l) : (k, l) ∈ m := by
  induction m with
  | nil => simp [lookupMap] at h
  | cons e rest ih =>
    rcases e with ⟨k2, v⟩
    by_cases hk : k2 = k
    · subst hk
      simp [lookupMap] at h
      subst h
      exact List.mem_cons_self _ _
    · simp [lookupMap, hk] at h
      exact List.mem_cons_of_mem _ (ih h)

lemma lookupMap_append (m m2 : List (Nat × Layout)) (k : Nat) :
    lookupMap (m ++ m2) k =
      (match lookupMap m k with
       | some v => some v
       | none => lookupMap m2 k) := by
  induction m with
  | nil => simp [lookupMap]
  | cons e rest ih =>
    rcases e with ⟨k2, v⟩
    by_cases hk : k2 = k
    · subst hk
      simp [lookupMap]
    · simp [lookupMap, hk, ih]

lemma mem_insertMap {m : List (Nat × Layout)} {k : Nat} {v : Layout} {e : Nat × Layout}
    (h : e ∈ insertMap m k v) : e ∈ m ∨ e = (k, v) := by
  unfold insertMap at h
  cases hl : lookupMap m k with
  | some w =>
    rw [hl] at h
    exact Or.inl h
  | none =>
    rw [hl] at h
    rcases List.mem_append.mp h with h2 | h2
    · exact Or.inl h2
    · exact Or.inr (List.mem_singleton.mp h2)

lemma lookupMap_insertMap_pres {m : List (Nat × Layout)} {x : Nat} {w : Layout}
    (k : Nat) (v : Layout) (h : lookupMap m x = some w) :
    lookupMap (insertMap m k v) x = some w := by
  unfold insertMap
  cases hl : lookupMap m k with
  | some u => exact h
  | none =>
    rw [lookupMap_append, h]

lemma lookupMap_insertMap_self (m : List (Nat × Layout)) (k : Nat) (v : Layout)
    (hall : ∀ e ∈ m, e.2 = v) :
    lookupMap (insertMap m k v) k = some v := by
  unfold insertMap
  cases hl : lookupMap m k with
  | some u =>
    have hu : u = v := hall _ (lookupMap_mem hl)
    rw [hl, hu]
  | none =>
    rw [lookupMap_append, hl]
    simp [lookupMap]

lemma insertMap_all {m : List (Nat × Layout)} {v : Layout} (k : Nat)
    (hall : ∀ e ∈ m, e.2 = v) :
    ∀ e ∈ insertMap m k v, e.2 = v := by
  intro e he
  rcases mem_insertMap he with h | h
  · exact hall e h
  · rw [h]

lemma simLoop_nil (g : Graph) (fuel : Nat) (st : SimState) :
    simLoop g (fuel + 1) [] st = some (st.numCvts, st) := rfl

lemma simLoop_cons_cheap (g : Graph) (fuel : Nat) (o : Nat) (l : Layout)
    (rest : List SimEntry) (st : SimState)
    (hexp : isExpensiveToRemat g (some o) l = false) :
    simLoop g (fuel + 1) ((some o, l) :: rest) st
      = (match procOperands g o l (g.opAt o).operands
            { st with numCvts := st.numCvts - 1,
                      processed := insertSet st.processed o,
                      layouts := insertLayoutSet st.layouts l,
                      popTrace := st.popTrace ++ [o] } rest with
         | .abort st2 => some (INT_MAX, st2)
         | .ok st2 queue2 => simLoop g fuel queue2 st2) := by
  simp [simLoop, hexp]

lemma procOperandTail_foldable (g : Graph) (i : Nat) (ne : Layout) (argI : Nat)
    (st : SimState) (q : List SimEntry)
    (hptr : isPtrToTensorTy (g.typeOf argI) = false)
    (hprod : (g.producerOf argI).isSome)
    (hfold : ∀ p, g.producerOf argI = some p → canFoldConversion g p ne = true) :
    procOperandTail g i ne argI st q
      = FoldStep.ok { st with toConvert := insertMap st.toConvert argI ne } q := by
  unfold procOperandTail
  cases hp : g.producerOf argI with
  | none =>
    rw [hp] at hprod
    simp at hprod
  | some p =>
    have hf := hfold p hp
    simp [hptr, hp, hf, ite_self]

lemma procOneOperand_foldable (g : Graph) (i : Nat) (target : Layout)
    (hinv : invertEncoding target (g.opAt i).kind = some target)
    (argI : Nat) (st : SimState) (q : List SimEntry)
    (hptr : isPtrToTensorTy (g.typeOf argI) = false)
    (hprod : (g.producerOf argI).isSome)
    (hfold : ∀ p, g.producerOf argI = some p → canFoldConversion g p target = true)
    (hall : ∀ e ∈ st.toConvert, e.2 = target) :
    procOneOperand g i target argI st q
      = FoldStep.ok { st with toConvert := insertMap st.toConvert argI target } q := by
  unfold procOneOperand
  rw [hinv]
  cases hl : lookupMap st.toConvert argI with
  | none =>
    exact procOperandTail_foldable g i target argI st q hptr hprod hfold
  | some prev =>
    have hprev : prev = target := hall _ (lookupMap_mem hl)
    subst hprev
    simp only [ne_eq, not_true_eq_false, if_false, ite_false]
    have := procOperandTail_foldable g i prev argI st q hptr hprod hfold
    simpa using this

lemma procOperands_foldable (g : Graph) (i : Nat) (target : Layout)
    (hinv : invertEncoding target (g.opAt i).kind = some target) :
    ∀ (vs : List Nat) (st : SimState) (q : List SimEntry),
      (∀ v ∈ vs, isPtrToTensorTy (g.typeOf v) = false ∧
        (g.producerOf v).isSome ∧
        (∀ p, g.producerOf v = some p → canFoldConversion g p target = true)) →
      (∀ e ∈ st.toConvert, e.2 = target) →
      ∃ tc2, procOperands g i target vs st q = FoldStep.ok { st with toConvert := tc2 } q ∧
        (∀ e ∈ tc2, e.2 = target) ∧
        (∀ v, lookupMap st.toConvert v = some target → lookupMap tc2 v = some target) ∧
        (∀ v ∈ vs, lookupMap tc2 v = some target) := by
  intro vs
  induction vs with
  | nil =>
    intro st q _ hall
    exact ⟨st.toConvert, rfl, hall, fun v h => h, by simp⟩
  | cons v rest ih =>
    intro st q hv hall
    rcases hv v (List.mem_cons_self v rest) with ⟨hptr, hprod, hfold⟩
    have hvs := fun w hw => hv w (List.mem_cons_of_mem v hw)
    have hone := procOneOperand_foldable g i target hinv v st q hptr hprod hfold hall
    have hall1 : ∀ e ∈ insertMap st.toConvert v target, e.2 = target :=
      insertMap_all v hall
    rcases ih { st with toConvert := insertMap st.toConvert v target } q hvs hall1 with
      ⟨tc2, heq, hall2, hpres, hcov⟩
    refine ⟨tc2, ?_, hall2, ?_, ?_⟩
    · show procOperands g i target (v :: rest) st q = _
      unfold procOperands
      rw [hone]
      exact heq
    · intro w hw
      exact hpres w (lookupMap_insertMap_pres v target hw)
    · intro w hw
      rcases List.mem_cons.mp hw with hw0 | hw1
      · subst hw0
        exact hpres w (lookupMap_insertMap_self st.toConvert w target hall)
      · exact hcov w hw1

/-- C5: seeding the backward simulator at a non-expensive instruction
whose layout inversion is the identity and all of whose operands have
producers into which the conversion can be folded returns net delta 0,
marks the seed processed, and records the target layout as the
required layout of every operand. -/
theorem C5_theorem : ∀ (g : Graph) (fuel seed : Nat) (target : Layout),
    isExpensiveToRemat g (some seed) target = false →
    invertEncoding target (g.opAt seed).kind = some target →
    (∀ v ∈ (g.opAt seed).operands, isPtrToTensorTy (g.typeOf v) = false ∧
      (g.producerOf v).isSome ∧
      (∀ p, g.producerOf v = some p → canFoldConversion g p target = true)) →
    ∃ st, simulateBackwardRematerialization g (fuel + 2) (some seed) target
        = some (0, st) ∧
      seed ∈ st.processed ∧
      (∀ v ∈ (g.opAt seed).operands, lookupMap st.toConvert v = some target) := by
  intro g fuel seed target hexp hinv hops
  rcases procOperands_foldable g seed target hinv (g.opAt seed).operands
      ⟨[seed], [target], [], 0, [seed]⟩ []
      hops (fun e he => absurd he (List.not_mem_nil e)) with
    ⟨tc2, heq, hall2, hpres, hcov⟩
  refine ⟨⟨[seed], [target], tc2, 0, [seed]⟩, ?_, List.mem_singleton.mpr rfl, hcov⟩
  show simLoop g (fuel + 1 + 1) [(some seed, target)] initSimState = _
  rw [simLoop_cons_cheap g (fuel + 1) seed target [] initSimState hexp]
  have hst1 : ({ initSimState with
      numCvts := initSimState.numCvts - 1,
      processed := insertSet initSimState.processed seed,
      layouts := insertLayoutSet initSimState.layouts target,
      popTrace := initSimState.popTrace ++ [seed] } : SimState)
      = ⟨[seed], [target], [], 0, [seed]⟩ := by
    simp [initSimState, insertSet, insertLayoutSet]
  rw [hst1, heq]
  exact simLoop_nil g fuel _

/-- C5 witness: Scenario A — the elementwise add of `exA` with both
operands produced by foldable instructions; the conversion to a new
blocked layout is fully eliminated. -/
theorem C5_witness :
    ∃ st, simulateBackwardRematerialization exA 5 (some 2) (Layout.blocked 1)
        = some (0, st) ∧
      2 ∈ st.processed ∧
      (∀ v ∈ (exA.opAt 2).operands, lookupMap st.toConvert v = some (Layout.blocked 1)) := by
  refine C5_theorem exA 3 2 (Layout.blocked 1) rfl rfl ?_
  intro v hv
  have hl : (exA.opAt 2).operands = [0, 1] := rfl
  rw [hl] at hv
  rcases List.mem_cons.mp hv with h0 | hv1
  · subst h0
    refine ⟨rfl, rfl, ?_⟩
    intro p hp
    rw [show exA.producerOf 0 = some 0 from rfl] at hp
    injection hp with h
    subst h
    rfl
  · rcases List.mem_cons.mp hv1 with h1 | hv2
    · subst h1
      refine ⟨rfl, rfl, ?_⟩
      intro p hp
      rw [show exA.producerOf 1 = some 1 from rfl] at hp
      injection hp with h
      subst h
      rfl
    · exact absurd hv2 (List.not_mem_nil v)

lemma lookupMap_insertMap_isSome (m : List (Nat × Layout)) (k : Nat) (v : Layout) :
    (lookupMap (insertMap m k v) k).isSome := by
  unfold insertMap
  cases hl : lookupMap m k with
  | some w => simp [hl]
  | none =>
    rw [lookupMap_append, hl]
    simp [lookupMap]

lemma procOperandTail_spec (g : Graph) (i : Nat) (ne : Layout) (v : Nat)
    (st : SimState) (q : List SimEntry) :
    procOperandTail g i ne v st q = FoldStep.abort st ∨
    ∃ st2 q2, procOperandTail g i ne v st q = FoldStep.ok st2 q2 ∧
      st2.processed = st.processed ∧ st2.layouts = st.layouts ∧
      st2.popTrace = st.popTrace ∧
      st2.toConvert = insertMap st.toConvert v ne ∧
      (q2 = q ∧ st2.numCvts = st.numCvts ∨
        ∃ p, g.producerOf v = some p ∧ p ∉ st.processed ∧
          q2 = (some p, ne) :: q ∧ st2.numCvts = st.numCvts + 1) := by
  unfold procOperandTail
  split
  · exact Or.inl rfl
  · split
    · exact Or.inr ⟨_, _, rfl, rfl, rfl, rfl, rfl, Or.inl ⟨rfl, rfl⟩⟩
    · rename_i p hp
      split
      · exact Or.inr ⟨_, _, rfl, rfl, rfl, rfl, rfl, Or.inl ⟨rfl, rfl⟩⟩
      · split
        · exact Or.inr ⟨_, _, rfl, rfl, rfl, rfl, rfl, Or.inl ⟨rfl, rfl⟩⟩
        · rename_i hskip _
          refine Or.inr ⟨_, _, rfl, rfl, rfl, rfl, rfl, Or.inr ⟨p, hp, ?_, rfl, rfl⟩⟩
          intro hmem
          apply hskip
          simp [hmem]

lemma procOperandTail_ok {g : Graph} {i : Nat} {ne : Layout} {v : Nat}
    {st : SimState} {q : List SimEntry} {st2 : SimState} {q2 : List SimEntry}
    (h : procOperandTail g i ne v st q = FoldStep.ok st2 q2) :
    st2.processed = st.processed ∧ st2.layouts = st.layouts ∧
    st2.popTrace = st.popTrace ∧
    st2.toConvert = insertMap st.toConvert v ne ∧
    (q2 = q ∧ st2.numCvts = st.numCvts ∨
      ∃ p, g.producerOf v = some p ∧ p ∉ st.processed ∧
        q2 = (some p, ne) :: q ∧ st2.numCvts = st.numCvts + 1) := by
  rcases procOperandTail_spec g i ne v st q with habort | ⟨st3, q3, heq, hprops⟩
  · rw [habort] at h
    exact FoldStep.noConfusion h
  · rw [heq] at h
    injection h with h1 h2
    subst h1
    subst h2
    exact hprops

lemma procOneOperand_ok {g : Graph} {i : Nat} {l : Layout} {v : Nat}
    {st : SimState} {q : List SimEntry} {st2 : SimState} {q2 : List SimEntry}
    (h : procOneOperand g i l v st q = FoldStep.ok st2 q2) :
    ∃ ne, invertEncoding l (g.opAt i).kind = some ne ∧
      st2.processed = st.processed ∧ st2.layouts = st.layouts ∧
      st2.popTrace = st.popTrace ∧
      st2.toConvert = insertMap st.toConvert v ne ∧
      (q2 = q ∧ st2.numCvts = st.numCvts ∨
        ∃ p, g.producerOf v = some p ∧ p ∉ st.processed ∧
          q2 = (some p, ne) :: q ∧ st2.numCvts = st.numCvts + 1) := by
  unfold procOneOperand at h
  cases hinv : invertEncoding l (g.opAt i).kind with
  | none =>
    rw [hinv] at h
    exact FoldStep.noConfusion h
  | some ne =>
    rw [hinv] at h
    have h2 : (match lookupMap st.toConvert v with
        | some prev =>
          if prev ≠ ne then FoldStep.abort st else procOperandTail g i ne v st q
        | none => procOperandTail g i ne v st q) = FoldStep.ok st2 q2 := h
    cases hl : lookupMap st.toConvert v with
    | none =>
      rw [hl] at h2
      exact ⟨ne, rfl, procOperandTail_ok h2⟩
    | some prev =>
      rw [hl] at h2
      have h3 : (if prev ≠ ne then FoldStep.abort st
          else procOperandTail g i ne v st q) = FoldStep.ok st2 q2 := h2
      by_cases hpe : prev ≠ ne
      · rw [if_pos hpe] at h3
        exact FoldStep.noConfusion h3
      · rw [if_neg hpe] at h3
        exact ⟨ne, rfl, procOperandTail_ok h3⟩

lemma procOperands_ok {g : Graph} {i : Nat} {l : Layout} :
    ∀ {vs : List Nat} {st : SimState} {q : List SimEntry}
      {st2 : SimState} {q2 : List SimEntry},
      procOperands g i l vs st q = FoldStep.ok st2 q2 →
      st2.processed = st.processed ∧
      (∀ x w, lookupMap st.toConvert x = some w → lookupMap st2.toConvert x = some w) ∧
      (∀ v ∈ vs, (lookupMap st2.toConvert v).isSome) ∧
      (∀ e ∈ q2, e ∈ q ∨ ∃ p enc, e = (some p, enc) ∧ p ∉ st.processed) := by
  intro vs
  induction vs with
  | nil =>
    intro st q st2 q2 h
    unfold procOperands at h
    injection h with h1 h2
    subst h1
    subst h2
    exact ⟨rfl, fun x w hx => hx, by simp, fun e he => Or.inl he⟩
  | cons v rest ih =>
    intro st q st2 q2 h
    unfold procOperands at h
    cases hone : procOneOperand g i l v st q with
    | abort st3 =>
      rw [hone] at h
      exact FoldStep.noConfusion h
    | ok st3 q3 =>
      rw [hone] at h
      have h2 : procOperands g i l rest st3 q3 = FoldStep.ok st2 q2 := h
      rcases procOneOperand_ok hone with
        ⟨ne, _, hproc3, _, _, htc3, hq3⟩
      rcases ih h2 with ⟨hproc2, hpres2, hcov2, hqueue2⟩
      refine ⟨hproc2.trans hproc3, ?_, ?_, ?_⟩
      · intro x w hx
        apply hpres2
        rw [htc3]
        exact lookupMap_insertMap_pres v ne hx
      · intro w hw
        rcases List.mem_cons.mp hw with hw0 | hw1
        · subst hw0
          have hs : (lookupMap st3.toConvert w).isSome := by
            rw [htc3]
            exact lookupMap_insertMap_isSome st.toConvert w ne
          rcases Option.isSome_iff_exists.mp hs with ⟨u, hu⟩
          have := hpres2 w u hu
          simp [this]
        · exact hcov2 w hw1
      · intro e he
        rcases hqueue2 e he with he3 | ⟨p, enc, hep, hpn⟩
        · rcases hq3 with ⟨hq3e, _⟩ | ⟨p, hp, hpn, hq3e, _⟩
          · subst hq3e
            exact Or.inl he3
          · subst hq3e
            rcases List.mem_cons.mp he3 with he0 | he1
            · exact Or.inr ⟨p, ne, he0, hpn⟩
            · exact Or.inl he1
        · rw [hproc3] at hpn
          exact Or.inr ⟨p, enc, hep, hpn⟩

lemma mem_insertSet {s : List Nat} {i j : Nat} (h : j ∈ insertSet s i) : j ∈ s ∨ j = i := by
  unfold insertSet at h
  by_cases hi : i ∈ s
  · rw [if_pos hi] at h
    exact Or.inl h
  · rw [if_neg hi] at h
    rcases List.mem_append.mp h with h1 | h1
    · exact Or.inl h1
    · exact Or.inr (List.mem_singleton.mp h1)

lemma simLoop_inv {g : Graph} :
    ∀ {fuel : Nat} {q : List SimEntry} {st : SimState} {r : Int} {st2 : SimState},
      simLoop g fuel q st = some (r, st2) → r ≠ INT_MAX →
      (∀ i ∈ st.processed, ∀ v ∈ (g.opAt i).operands, (lookupMap st.toConvert v).isSome) →
      (∀ i ∈ st2.processed, ∀ v ∈ (g.opAt i).operands, (lookupMap st2.toConvert v).isSome) := by
  intro fuel
  induction fuel with
  | zero =>
    intro q st r st2 h
    exact absurd h (by simp [simLoop])
  | succ fuel ih =>
    intro q st r st2 h hr hinv
    cases q with
    | nil =>
      unfold simLoop at h
      injection h with h1
      injection h1 with _ hst
      subst hst
      exact hinv
    | cons e rest =>
      rcases e with ⟨o, l⟩
      unfold simLoop at h
      by_cases hexp : isExpensiveToRemat g o l = true
      · rw [if_pos hexp] at h
        injection h with h1
        injection h1 with _ hst
        subst hst
        exact hinv
      · rw [if_neg hexp] at h
        cases o with
        | none =>
          have h2 : some (st.numCvts, st) = some (r, st2) := h
          injection h2 with h1
          injection h1 with _ hst
          subst hst
          exact hinv
        | some i =>
          have h2 : (match procOperands g i l (g.opAt i).operands
              { st with numCvts := st.numCvts - 1,
                        processed := insertSet st.processed i,
                        layouts := insertLayoutSet st.layouts l,
                        popTrace := st.popTrace ++ [i] } rest with
            | FoldStep.abort stx => some (INT_MAX, stx)
            | FoldStep.ok stx qx => simLoop g fuel qx stx) = some (r, st2) := h
          cases hpo : procOperands g i l (g.opAt i).operands
              { st with numCvts := st.numCvts - 1,
                        processed := insertSet st.processed i,
                        layouts := insertLayoutSet st.layouts l,
                        popTrace := st.popTrace ++ [i] } rest with
          | abort stx =>
            rw [hpo] at h2
            injection h2 with h1
            injection h1 with hr2 _
            exact absurd hr2.symm hr
          | ok stx qx =>
            rw [hpo] at h2
            apply ih h2 hr
            rcases procOperands_ok hpo with ⟨hproc, hpres, hcov, _⟩
            intro j hj v hv
            rw [hproc] at hj
            rcases mem_insertSet hj with hj0 | hj1
            · rcases Option.isSome_iff_exists.mp (hinv j hj0 v hv) with ⟨w, hw⟩
              have := hpres v w hw
              simp [this]
            · subst hj1
              exact hcov v hv

/-- C10: on every successful (non-`INT_MAX`) run of the backward
simulator, the returned value-to-required-layout map has an entry for
every operand of every processed instruction — including operands that
are not tensor-typed, since the entry is recorded before the
tensor-type and producer filtering. -/
theorem C10_theorem : ∀ (g : Graph) (fuel : Nat) (o : Option Nat) (target : Layout)
    (r : Int) (st : SimState),
    simulateBackwardRematerialization g fuel o target = some (r, st) →
    r ≠ INT_MAX →
    ∀ i ∈ st.processed, ∀ v ∈ (g.opAt i).operands,
      (lookupMap st.toConvert v).isSome = true := by
  intro g fuel o target r st h hr
  exact simLoop_inv h hr (by intro i hi; exact absurd hi (List.not_mem_nil i))

/-- C10 witness: on `exC10` the seed's operand is a scalar; the run
succeeds with delta 0 and the scalar operand is recorded in the map. -/
theorem C10_witness : (lookupMap [(0, Layout.blocked 1)] 0).isSome = true :=
  C10_theorem exC10 9 (some 0) (Layout.blocked 1) 0
    ⟨[0], [Layout.blocked 1], [(0, Layout.blocked 1)], 0, [0]⟩
    rfl (by decide) 0 (by decide) 0 (by decide)

/-- The largest operand count of any operation of the graph. -/
def maxOperandCount (g : Graph) : Nat :=
  g.ops.foldr (fun op acc => max op.operands.length acc) 0

/-- Base of the termination measure: strictly larger (by 2) than any
operand count, and at least 2. -/
def measBase (g : Graph) : Nat := maxOperandCount g + 2

/-- Weight of one DFS stack entry: a null seed weighs nothing (it is
popped and the walk breaks), an operation `i` weighs `B ^ (i + 1)`. -/
def entryWeight (B : Nat) : SimEntry → Nat
  | (none, _) => 0
  | (some i, _) => B ^ (i + 1)

/-- Total weight of the DFS stack. -/
def queueMeasure (B : Nat) (q : List SimEntry) : Nat :=
  (q.map (entryWeight B)).sum

lemma queueMeasure_cons (B : Nat) (e : SimEntry) (q : List SimEntry) :
    queueMeasure B (e :: q) = entryWeight B e + queueMeasure B q := by
  simp [queueMeasure]

lemma foldr_max_operands_le : ∀ (l : List Opn), ∀ op ∈ l,
    op.operands.length ≤ l.foldr (fun op acc => max op.operands.length acc) 0 := by
  intro l
  induction l with
  | nil => intro op hop; exact absurd hop (List.not_mem_nil op)
  | cons a rest ih =>
    intro op hop
    rcases List.mem_cons.mp hop with h | h
    · subst h
      exact Nat.le_max_left _ _
    · exact Nat.le_trans (ih op h) (Nat.le_max_right _ _)

lemma opAt_operands_out_of_range {g : Graph} {i : Nat} (h : g.ops.length ≤ i) :
    (g.opAt i).operands = [] := by
  unfold Graph.opAt
  rw [List.getD_eq_getElem?_getD, List.getElem?_eq_none h]
  rfl

lemma opAt_operands_le (g : Graph) (i : Nat) :
    (g.opAt i).operands.length ≤ maxOperandCount g := by
  by_cases hi : i < g.ops.length
  · have hmem : g.opAt i ∈ g.ops := by
      unfold Graph.opAt
      rw [List.getD_eq_getElem?_getD, List.getElem?_eq_getElem hi]
      exact List.getElem_mem _
    exact foldr_max_operands_le g.ops _ hmem
  · rw [opAt_operands_out_of_range (by omega)]
    exact Nat.zero_le _

lemma wf_producer_lt {g : Graph} (hwf : g.wfb = true) :
    ∀ i, ∀ v ∈ (g.opAt i).operands, ∀ j, g.producerOf v = some j → j < i := by
  intro i v hv j hj
  by_cases hi : i < g.ops.length
  · unfold Graph.wfb at hwf
    rw [List.all_eq_true] at hwf
    have h1 := hwf i (List.mem_range.mpr hi)
    rw [List.all_eq_true] at h1
    have h2 := h1 v hv
    rw [hj] at h2
    exact of_decide_eq_true h2
  · rw [opAt_operands_out_of_range (by omega)] at hv
    exact absurd hv (List.not_mem_nil v)

lemma procOperands_measure {g : Graph} {i : Nat} {l : Layout} {B : Nat} (hB : 1 ≤ B) :
    ∀ {vs : List Nat} {st : SimState} {q : List SimEntry}
      {st2 : SimState} {q2 : List SimEntry},
      procOperands g i l vs st q = FoldStep.ok st2 q2 →
      (∀ v ∈ vs, ∀ j, g.producerOf v = some j → j < i) →
      queueMeasure B q2 ≤ queueMeasure B q + vs.length * B ^ i := by
  intro vs
  induction vs with
  | nil =>
    intro st q st2 q2 h hv
    unfold procOperands at h
    injection h with h1 h2
    subst h2
    simp
  | cons v rest ih =>
    intro st q st2 q2 h hv
    unfold procOperands at h
    cases hone : procOneOperand g i l v st q with
    | abort stx =>
      rw [hone] at h
      exact FoldStep.noConfusion h
    | ok st3 q3 =>
      rw [hone] at h
      have h2 : procOperands g i l rest st3 q3 = FoldStep.ok st2 q2 := h
      have hrest := fun w hw => hv w (List.mem_cons_of_mem v hw)
      have hih := ih h2 hrest
      rcases procOneOperand_ok hone with ⟨ne, _, _, _, _, _, hq3⟩
      rcases hq3 with ⟨hq3e, _⟩ | ⟨p, hp, _, hq3e, _⟩
      · rw [hq3e] at hih
        calc queueMeasure B q2 ≤ queueMeasure B q + rest.length * B ^ i := hih
          _ ≤ queueMeasure B q + (rest.length + 1) * B ^ i :=
              Nat.add_le_add_left (Nat.mul_le_mul_right _ (by omega)) _
      · rw [hq3e] at hih
        have hpi : p < i := hv v (List.mem_cons_self v rest) p hp
        have hpow : B ^ (p + 1) ≤ B ^ i := Nat.pow_le_pow_right hB (by omega)
        calc queueMeasure B q2
            ≤ queueMeasure B ((some p, ne) :: q) + rest.length * B ^ i := hih
          _ = B ^ (p + 1) + queueMeasure B q + rest.length * B ^ i := by
              rw [queueMeasure_cons]
              rfl
          _ ≤ B ^ i + queueMeasure B q + rest.length * B ^ i :=
              Nat.add_le_add_right (Nat.add_le_add_right hpow _) _
          _ = queueMeasure B q + (rest.length + 1) * B ^ i := by ring

lemma simLoop_terminates {g : Graph} (hwf : g.wfb = true) :
    ∀ (fuel : Nat) (q : List SimEntry) (st : SimState),
      queueMeasure (measBase g) q < fuel →
      (simLoop g fuel q st).isSome = true := by
  intro fuel
  induction fuel with
  | zero =>
    intro q st h
    exact absurd h (Nat.not_lt_zero _)
  | succ fuel ih =>
    intro q st hlt
    cases q with
    | nil => rfl
    | cons e rest =>
      rcases e with ⟨o, l⟩
      cases hexp : isExpensiveToRemat g o l with
      | true =>
        unfold simLoop
        rw [if_pos hexp]
        rfl
      | false =>
        cases o with
        | none => exact Bool.noConfusion hexp
        | some i =>
          rw [simLoop_cons_cheap g fuel i l rest st hexp]
          cases hpo : procOperands g i l (g.opAt i).operands
              { st with numCvts := st.numCvts - 1,
                        processed := insertSet st.processed i,
                        layouts := insertLayoutSet st.layouts l,
                        popTrace := st.popTrace ++ [i] } rest with
          | abort stx => rfl
          | ok stx qx =>
            show (simLoop g fuel qx stx).isSome = true
            apply ih
            have hB : 1 ≤ measBase g := by
              unfold measBase
              omega
            have hbound := procOperands_measure hB hpo
              (fun v hv j hj => wf_producer_lt hwf i v hv j hj)
            have hL : (g.opAt i).operands.length ≤ measBase g - 2 := by
              have := opAt_operands_le g i
              unfold measBase
              omega
            have hW : 0 < measBase g ^ i := Nat.pos_pow_of_pos i (by omega)
            have hLW : (g.opAt i).operands.length * measBase g ^ i
                ≤ (measBase g - 2) * measBase g ^ i :=
              Nat.mul_le_mul_right _ hL
            have hge2 : 2 ≤ measBase g := by
              unfold measBase
              omega
            have hsum : (measBase g - 2) * measBase g ^ i + 2 * measBase g ^ i
                = measBase g * measBase g ^ i := by
              rw [← Nat.add_mul, Nat.sub_add_cancel hge2]
            have hM : queueMeasure (measBase g) ((some i, l) :: rest)
                = measBase g * measBase g ^ i + queueMeasure (measBase g) rest := by
              rw [queueMeasure_cons]
              congr 1
              show measBase g ^ (i + 1) = measBase g * measBase g ^ i
              rw [Nat.pow_succ]
              ring
            rw [hM] at hlt
            have h2W : 2 ≤ 2 * measBase g ^ i := by omega
            linarith

/-- C8 (amended): within one invocation of the backward simulator, an
instruction already marked processed is never pushed onto the DFS
stack again — every entry a processing step adds is for an operation
outside the current processed set — and the walk terminates on every
finite block-local acyclic operand graph (a fuel of one more than the
stack's weight always suffices). An instruction that was queued more
than once before its first processing may however be popped and
processed more than once (see the counterexample). -/
theorem C8_theorem :
    (∀ (g : Graph) (i : Nat) (l : Layout) (vs : List Nat) (st : SimState)
        (q : List SimEntry) (st2 : SimState) (q2 : List SimEntry),
      procOperands g i l vs st q = FoldStep.ok st2 q2 →
      ∀ e ∈ q2, e ∈ q ∨ ∃ p enc, e = (some p, enc) ∧ p ∉ st.processed) ∧
    (∀ (g : Graph) (q : List SimEntry) (st : SimState),
      g.wfb = true →
      (simLoop g (queueMeasure (measBase g) q + 1) q st).isSome = true) := by
  constructor
  · intro g i l vs st q st2 q2 h e he
    exact (procOperands_ok h).2.2.2 e he
  · intro g q st hwf
    exact simLoop_terminates hwf _ q st (Nat.lt_succ_self _)

/-- C8 counterexample: in `exD` the result of operation 0 feeds both
operands of the seed (operation 1), so operation 0 is pushed twice
before its first pop; the processing trace is `[1, 0, 0]` — operation 0
is popped and processed a second time after it was marked processed,
refuting "each instruction is processed at most once". -/
theorem C8_counterexample :
    simulateBackwardRematerialization exD 9 (some 1) (Layout.blocked 1)
        = some (0, ⟨[1, 0], [Layout.blocked 1], [(0, Layout.blocked 1)], 0, [1, 0, 0]⟩)
      ∧ ([1, 0, 0] : List Nat).count 0 = 2 := by
  exact ⟨rfl, rfl⟩

/-- C8 witness: both conjuncts of the amended statement instantiated on
concrete inputs (an empty operand list, and the diamond module `exD`
seeded at operation 1). -/
theorem C8_witness :
    (((none : Option Nat), Layout.blocked 1) ∈ ([((none : Option Nat), Layout.blocked 1)] : List SimEntry)
        ∨ ∃ p enc, ((none : Option Nat), Layout.blocked 1) = (some p, enc)
            ∧ p ∉ ([] : List Nat)) ∧
    (simLoop exD (queueMeasure (measBase exD) [(some 1, Layout.blocked 1)] + 1)
        [(some 1, Layout.blocked 1)] initSimState).isSome = true := by
  constructor
  · exact C8_theorem.1 exD 1 (Layout.blocked 1) [] initSimState
      [((none : Option Nat), Layout.blocked 1)] initSimState
      [((none : Option Nat), Layout.blocked 1)] rfl
      ((none : Option Nat), Layout.blocked 1) (by decide)
  · exact C8_theorem.2 exD [(some 1, Layout.blocked 1)] initSimState (by decide)

/-- C2: evaluation at the failing input. On `exC2`, the forward slice
of the start operation 3 is just `[3]`; operation 3's operand is value
2, whose producer (operation 2) is outside the slice, is not a
conversion, and seeding the backward simulator at it under the target
layout yields the strictly positive delta 2 — the claim requires the
check to fail here. The code instead succeeds, because each iteration
of the operand loop seeds the simulator at `arg.getDefiningOp()`
(Utility.cpp:526), which is null for the block argument, so the
rejection guard `argOp && ...` (Utility.cpp:532) can never fire. -/
theorem C2_theorem :
    simulateForwardRematerializationInLoop exC2 20 3 argC2 (Layout.blocked 1)
        = some true
      ∧ getForwardSliceOpUseInfo exC2 20 (some 3) = some ([3], [])
      ∧ (2 : Nat) ∈ (exC2.opAt 3).operands
      ∧ exC2.producerOf 2 = some 2
      ∧ (exC2.opAt 2).kind ≠ OpKind.convertLayout
      ∧ (2 : Nat) ∉ ([3] : List Nat)
      ∧ (simulateBackwardRematerialization exC2 20 (some 2) (Layout.blocked 1)).map
          Prod.fst = some 2
      ∧ (2 : Int) > 0
      ∧ exC2.producerOf argC2.vid = none := by
  exact ⟨rfl, rfl, by decide, rfl, by decide, by decide, rfl, by decide, rfl⟩

/-- Whether a placement record inserts a genuine conversion
instruction. -/
def isConvertAction : RAction → Bool
  | .convertAfter _ _ _ _ => true
  | .convertAtBlockStart _ _ _ _ => true
  | .cloneAfter _ _ _ _ => false

/-- The placements the rewrite executor emits for one plan value `v`:
when `v`'s producer was marked processed, a clone of the producer
placed immediately after it followed by a conversion anchored after
the clone (reading the clone's result); when the producer exists but
was not processed, a single conversion anchored after the producer;
for a bare block argument, a single conversion at the very start of
its owning block. -/
def valueActionsOK (g : Graph) (processed : List Nat) (v : Nat)
    (b : List RAction) : Prop :=
  match g.producerOf v with
  | some p =>
    if p ∈ processed then
      ∃ c r ws r2 tl, b = [RAction.cloneAfter p c r ws, RAction.convertAfter c r r2 tl]
    else
      ∃ r2 tl, b = [RAction.convertAfter p v r2 tl]
  | none => ∃ r2 tl, b = [RAction.convertAtBlockStart (g.blockOfVal v) v r2 tl]

lemma rematConvert_actions {g : Graph} {st : RState} {co : Option Nat}
    {cv ov : Nat} {tl : Layout} {st1 : RState}
    (h : rematConvert g st co cv ov tl = some st1) :
    st1.actions = st.actions ++
      [match co with
       | some a => RAction.convertAfter a cv st.nextVal tl
       | none => RAction.convertAtBlockStart (g.blockOfVal cv) cv st.nextVal tl] := by
  unfold rematConvert at h
  cases hty : typeOfExt g st cv with
  | tensor shape elemType enc =>
    rw [hty] at h
    injection h with h1
    subst h1
    rfl
  | ptr b =>
    rw [hty] at h
    exact Option.noConfusion h
  | scalar s =>
    rw [hty] at h
    exact Option.noConfusion h

lemma cloneWithInferType_shape (g : Graph) (st : RState) (p : Nat) :
    ∃ c r ws, (cloneWithInferType g st p).1.actions
        = st.actions ++ [RAction.cloneAfter p c r ws] ∧
      (cloneWithInferType g st p).2.1 = c ∧ (cloneWithInferType g st p).2.2 = r := by
  exact ⟨st.nextOp, _, _, rfl, rfl, rfl⟩

lemma rematStep_actions {g : Graph} {toConvert : List (Nat × Layout)}
    {processed : List Nat} {st : RState} {v : Nat} {st1 : RState}
    (h : rematStep g toConvert processed st v = some st1) :
    ∃ b, st1.actions = st.actions ++ b ∧ valueActionsOK g processed v b := by
  unfold rematStep at h
  cases htl : lookupMap toConvert v with
  | none =>
    rw [htl] at h
    exact Option.noConfusion h
  | some tl =>
    rw [htl] at h
    have h2 : (match g.producerOf v with
        | some p =>
          if p ∈ processed then
            rematConvert g (cloneWithInferType g st p).1
              (some (cloneWithInferType g st p).2.1)
              ((cloneWithInferType g st p).2.2) v tl
          else rematConvert g st (some p) v v tl
        | none => rematConvert g st none v v tl) = some st1 := h
    cases hp : g.producerOf v with
    | none =>
      rw [hp] at h2
      have hact := rematConvert_actions h2
      refine ⟨_, hact, ?_⟩
      simp only [valueActionsOK, hp]
      exact ⟨st.nextVal, tl, rfl⟩
    | some p =>
      rw [hp] at h2
      have h3 : (if p ∈ processed then
            rematConvert g (cloneWithInferType g st p).1
              (some (cloneWithInferType g st p).2.1)
              ((cloneWithInferType g st p).2.2) v tl
          else rematConvert g st (some p) v v tl) = some st1 := h2
      by_cases hmem : p ∈ processed
      · rw [if_pos hmem] at h3
        rcases cloneWithInferType_shape g st p with ⟨c, r, ws, hclone, hc, hr⟩
        have hact := rematConvert_actions h3
        rw [hclone, hc, hr] at hact
        refine ⟨[RAction.cloneAfter p c r ws,
          RAction.convertAfter c r (cloneWithInferType g st p).1.nextVal tl], ?_, ?_⟩
        · rw [hact]
          simp [List.append_assoc]
        · simp only [valueActionsOK, hp]
          rw [if_pos hmem]
          exact ⟨c, r, ws, (cloneWithInferType g st p).1.nextVal, tl, rfl⟩
      · rw [if_neg hmem] at h3
        have hact := rematConvert_actions h3
        refine ⟨_, hact, ?_⟩
        simp only [valueActionsOK, hp]
        rw [if_neg hmem]
        exact ⟨st.nextVal, tl, rfl⟩

lemma rematFold_actions {g : Graph} {toConvert : List (Nat × Layout)}
    {processed : List Nat} :
    ∀ {vs : List Nat} {st : RState} {st2 : RState},
      rematFold g toConvert processed vs st = some st2 →
      ∃ blocks : List (List RAction),
        st2.actions = st.actions ++ blocks.flatten ∧
        blocks.length = vs.length ∧
        ∀ k, k < vs.length →
          valueActionsOK g processed (vs.getD k 0) (blocks.getD k []) := by
  intro vs
  induction vs with
  | nil =>
    intro st st2 h
    unfold rematFold at h
    injection h with h1
    subst h1
    exact ⟨[], by simp, rfl, fun k hk => absurd hk (Nat.not_lt_zero k)⟩
  | cons v rest ih =>
    intro st st2 h
    unfold rematFold at h
    cases hstep : rematStep g toConvert processed st v with
    | none =>
      rw [hstep] at h
      exact Option.noConfusion h
    | some st1 =>
      rw [hstep] at h
      have h2 : rematFold g toConvert processed rest st1 = some st2 := h
      rcases rematStep_actions hstep with ⟨b, hb, hok⟩
      rcases ih h2 with ⟨blocks, hacts, hlen, hall⟩
      refine ⟨b :: blocks, ?_, by simp [hlen], ?_⟩
      · rw [hacts, hb]
        simp [List.append_assoc]
      · intro k hk
        cases k with
        | zero => exact hok
        | succ k2 =>
          exact hall k2 (by simpa using hk)

/-- C3 (amended): the rewrite executor emits, for every plan value,
exactly one conversion instruction — not only for values that cannot
be produced at the target layout directly. For a value whose producer
was marked processed, the producer is cloned with operands rewritten
through the substitution map, the clone is placed immediately after
the original, and the conversion is anchored after the clone (it
converts the clone's result, and is a trivial conversion when the
clone already carries the target layout); for a value whose producer
was not processed, the conversion is anchored after the producer; for
a bare block parameter, the conversion is placed at the very start of
the parameter's owning block. -/
theorem C3_theorem : ∀ (g : Graph) (toConvert : List (Nat × Layout))
    (processed : List Nat) (mapping0 : List (Nat × Nat)) (baseOp baseVal : Nat)
    (st2 : RState),
    rematerializeConversionChain g toConvert processed mapping0 baseOp baseVal
        = some st2 →
    ∃ blocks : List (List RAction),
      st2.actions = blocks.flatten ∧
      blocks.length = (sortedValues g toConvert).length ∧
      ∀ k, k < (sortedValues g toConvert).length →
        valueActionsOK g processed ((sortedValues g toConvert).getD k 0)
          (blocks.getD k []) := by
  intro g toConvert processed mapping0 baseOp baseVal st2 h
  unfold rematerializeConversionChain at h
  rcases rematFold_actions h with ⟨blocks, hacts, hlen, hall⟩
  exact ⟨blocks, by simpa using hacts, hlen, hall⟩

/-- C3 counterexample: on `exC3` the single plan value 0 has its
producer (operation 0) in the processed set, yet the executor still
creates a conversion instruction (anchored after the clone) — refuting
the claim that a genuine conversion is inserted only for values that
cannot be produced at the target layout directly. -/
theorem C3_counterexample :
    (rematerializeConversionChain exC3 [(0, Layout.blocked 1)] [0] [] 10 10).map
        (fun st => st.actions)
      = some [RAction.cloneAfter 0 10 10 [],
              RAction.convertAfter 10 10 11 (Layout.blocked 1)]
      ∧ exC3.producerOf 0 = some 0
      ∧ (0 : Nat) ∈ ([0] : List Nat)
      ∧ isConvertAction (RAction.convertAfter 10 10 11 (Layout.blocked 1)) = true := by
  exact ⟨rfl, rfl, by decide, rfl⟩

/-- C3 witness: the amended characterization instantiated on the
`exC3` run whose plan value has a processed producer. -/
theorem C3_witness :
    ∃ blocks : List (List RAction),
      [RAction.cloneAfter 0 10 10 [],
        RAction.convertAfter 10 10 11 (Layout.blocked 1)] = blocks.flatten ∧
      blocks.length = (sortedValues exC3 [(0, Layout.blocked 1)]).length ∧
      ∀ k, k < (sortedValues exC3 [(0, Layout.blocked 1)]).length →
        valueActionsOK exC3 [0] ((sortedValues exC3 [(0, Layout.blocked 1)]).getD k 0)
          (blocks.getD k []) :=
  C3_theorem exC3 [(0, Layout.blocked 1)] [0] [] 10 10
    ⟨12, 12, [(0, 11)],
      [(11, MLIRType.tensor [2] 0 (Layout.blocked 1)),
       (10, MLIRType.tensor [2] 0 (Layout.blocked 0))],
      [RAction.cloneAfter 0 10 10 [],
       RAction.convertAfter 10 10 11 (Layout.blocked 1)]⟩ rfl
